import Mathlib

/-!
Shallow embedding of warden-core's Rust scanning engine
(src/warden_rust/src/lib.rs) and proofs about the claims of its
specification.

Modelling conventions:
* File contents are byte lists (List Nat, each < 256 in intended use);
  byte 10 is a newline, byte 13 a carriage return.
* The filesystem is a total map from path strings to an RFile record:
  size? models std::fs::metadata(path).map(|m| m.len()) (none = the
  metadata call fails) and content? models File::open(path) followed by
  reading (none = the open fails).  The map is consulted every time the
  source opens the file, matching the source's re-open pattern.
* External library behaviour that the repository only calls -- the
  content_inspector sniff, SHA-256, UTF-8 decoding of a line
  (String::from_utf8 inside BufRead::lines), and regex compilation /
  leftmost-match search -- is abstracted into the Ext record of oracles.
  Theorems quantify over every Ext, so nothing about those libraries is
  assumed; witnesses instantiate Ext with small executable stand-ins.
* A regex::Regex value is modelled by its observable use in this code
  base: find, returning the byte offset of the start of the leftmost
  match on a line (the source only ever reads m.start()).
-/

namespace Warden

/-- A file as the filesystem presents it to the engine: the metadata
size (none when the metadata call fails) and the readable content bytes
(none when opening the file fails). -/
structure RFile where
  size? : Option Nat
  content? : Option (List Nat)

/-- The filesystem: a total map from paths to files. -/
abbrev FS := String → RFile

/-- Abstract model of a compiled regex: find returns the byte offset of
the start of the leftmost match in the given line, none when the line
does not match.  This is the only operation the source uses. -/
structure Regex where
  find : List Nat → Option Nat

/-- Oracles for the external libraries the engine calls.
inspect_binary is content_inspector::inspect(..) == ContentType::BINARY;
sha256hex is the hex digest of sha2::Sha256 over the fed bytes;
utf8Ok says whether a raw line decodes as UTF-8 (BufRead::lines yields
Ok for the line exactly when it does); regexCompile is
regex::Regex::new, none when the pattern fails to compile. -/
structure Ext where
  inspect_binary : List Nat → Bool
  sha256hex : List Nat → String
  utf8Ok : List Nat → Bool
  regexCompile : String → Option Regex

/-- Mirror of the pyclass RustRule. -/
structure RustRule where
  id : String
  pattern : String

/-- Mirror of the pyclass MatchHit; snippet is kept as bytes. -/
structure MatchHit where
  file_path : String
  line_number : Nat
  column : Nat
  rule_id : String
  snippet : List Nat
deriving DecidableEq

/-! ### Line splitting (BufRead::lines)

BufRead::lines splits the byte stream at every 0x0A, strips that byte,
then strips one trailing 0x0D from the line; a final fragment not
terminated by 0x0A is still a line (with no 0x0D stripping); a
terminating final 0x0A produces no extra empty line. -/

/-- Strip one trailing carriage return, as BufRead::lines does after
stripping the newline. -/
def stripCR (l : List Nat) : List Nat :=
  match l.getLast? with
  | some 13 => l.dropLast
  | _ => l

/-- Worker for rustLines: acc is the current (unterminated) line. -/
def rustLinesGo : List Nat → List Nat → List (List Nat)
  | [], acc => if acc.isEmpty then [] else [acc]
  | b :: rest, acc =>
      if b = 10 then stripCR acc :: rustLinesGo rest []
      else rustLinesGo rest (acc ++ [b])

/-- The sequence of lines BufRead::lines yields for the given content
bytes (each line as raw bytes, before UTF-8 decoding). -/
def rustLines (content : List Nat) : List (List Nat) :=
  rustLinesGo content []

/-- ASCII whitespace bytes; models the bytes str::trim removes (the
Unicode-only whitespace code points are multi-byte and not modelled). -/
def isWsByte (b : Nat) : Bool :=
  b == 32 || b == 9 || b == 10 || b == 11 || b == 12 || b == 13

/-- Model of str::trim on a line's bytes. -/
def trimBytes (l : List Nat) : List Nat :=
  ((l.dropWhile isWsByte).reverse.dropWhile isWsByte).reverse

/-! ### Language detection (detect_language_rs) -/

/-- Split a character list at every occurrence of sep (n separators
give n+1 parts), mirroring str::split with a one-character pattern. -/
def splitChar (sep : Char) : List Char → List (List Char)
  | [] => [[]]
  | c :: r =>
      if c = sep then [] :: splitChar sep r
      else
        match splitChar sep r with
        | [] => [[c]]
        | p :: ps => (c :: p) :: ps

/-- ASCII lowercasing of one character (Rust's to_lowercase also
lowers non-ASCII letters; extensions are ASCII in practice). -/
def lowerChar (c : Char) : Char :=
  if 'A' ≤ c ∧ c ≤ 'Z' then Char.ofNat (c.toNat + 32) else c

/-- Model of std Path::file_name for Unix-style path strings: the last
nonempty component, none for paths ending in the special components
"." or "..". -/
def rustFileName (path : String) : Option (List Char) :=
  match ((splitChar '/' path.data).filter (fun c => ¬ c = [])).getLast? with
  | some c => if c = ['.'] ∨ c = ['.', '.'] then none else some c
  | none => none

/-- Model of std Path::extension: the part of the file name after the
last dot, none when there is no dot or when the only dot is the leading
one of a dotfile. -/
def rustExtension (path : String) : Option (List Char) :=
  (rustFileName path).bind (fun fn =>
    match splitChar '.' fn with
    | [] => none
    | [_] => none
    | first :: rest =>
        if first = [] ∧ rest.length = 1 then none else rest.getLast?)

/-- detect_language_rs from the source: extension-based language tag
(lowercased extension; unknown extensions give "unknown"). -/
def detect_language_rs (path : String) : String :=
  match String.mk (((rustExtension path).getD []).map lowerChar) with
  | "py" | "pyw" => "python"
  | "js" | "jsx" | "mjs" | "cjs" => "javascript"
  | "ts" => "typescript"
  | "tsx" => "tsx"
  | "go" => "go"
  | "rs" => "rust"
  | "java" => "java"
  | "dart" => "dart"
  | "swift" => "swift"
  | "kt" | "kts" => "kotlin"
  | "c" => "c"
  | "h" => "c"
  | "cpp" | "cc" | "cxx" | "hpp" | "hh" => "cpp"
  | "cs" => "csharp"
  | "rb" => "ruby"
  | "php" => "php"
  | "md" => "markdown"
  | "yaml" | "yml" => "yaml"
  | "json" => "json"
  | "sql" => "sql"
  | "sh" => "shell"
  | _ => "unknown"

/-! ### match_patterns -/

/-- The rule compilation pass at the top of match_patterns (and of
validate_files): compile each pattern once, dropping rules whose
pattern fails to compile. -/
def compiledRules (ext : Ext) (rules : List RustRule) : List (String × Regex) :=
  rules.filterMap (fun r => (ext.regexCompile r.pattern).map (fun re => (r.id, re)))

/-- The hits match_patterns produces for one file: open the file (zero
hits when the open fails), iterate lines with their 0-based index,
skip lines that fail UTF-8 decoding, and for each compiled rule that
matches push one hit with the 1-based line, the 1-based byte column of
the leftmost match start on the raw line, the rule id and the trimmed
line as snippet. -/
def fileHits (ext : Ext) (compiled : List (String × Regex)) (fs : FS) (fp : String) :
    List MatchHit :=
  match (fs fp).content? with
  | none => []
  | some content =>
      ((rustLines content).enum).flatMap (fun pr =>
        if ext.utf8Ok pr.2 then
          compiled.filterMap (fun c =>
            (c.2.find pr.2).map (fun s =>
              { file_path := fp, line_number := pr.1 + 1, column := s + 1,
                rule_id := c.1, snippet := trimBytes pr.2 }))
        else [])

/-- match_patterns from the source: compile rules once, return
immediately when none survive, otherwise scan every file. -/
def match_patterns (ext : Ext) (fs : FS) (files : List String) (rules : List RustRule) :
    List MatchHit :=
  let compiled := compiledRules ext rules
  if compiled.isEmpty then [] else files.flatMap (fileHits ext compiled fs)

/-- The File::open calls match_patterns performs (one attempt per path,
only after at least one rule compiled). -/
def match_patterns_opens (ext : Ext) (files : List String) (rules : List RustRule) :
    List String :=
  if (compiledRules ext rules).isEmpty then [] else files

/-! ### discover_files -/

/-- One entry yielded by the ignore-aware walker.  isFile models
entry.file_type().is_file(); size? models entry.metadata().map(len);
content? models File::open on the entry's path (none = the open fails;
when it succeeds the source reads at most the first 1024 bytes for the
sniff, modelled by taking content?.take 1024). -/
structure WalkEntry where
  isFile : Bool
  path : String
  size? : Option Nat
  content? : Option (List Nat)

/-- The processing of one walker result inside discover_files' loop.
A none result models an Err from the walker (skipped by the
if-let-Ok).  The size check uses metadata length with unwrap_or(0);
the binary sniff runs only when the open succeeds -- when the open
fails the entry is still pushed. -/
def discoverEntry (ext : Ext) (sizeLimit : Nat) (e? : Option WalkEntry) :
    Option (String × Nat × String) :=
  e?.bind (fun e =>
    if e.isFile then
      if e.size?.getD 0 > sizeLimit then none
      else
        match e.content? with
        | some bytes =>
            if ext.inspect_binary (bytes.take 1024) then none
            else some (e.path, e.size?.getD 0, detect_language_rs e.path)
        | none => some (e.path, e.size?.getD 0, detect_language_rs e.path)
    else none)

/-- discover_files from the source, over the walker's result sequence.
The default size limit is 100 MiB when max_size_mb is absent. -/
def discover_files (ext : Ext) (entries : List (Option WalkEntry))
    (max_size_mb : Option Nat) : List (String × Nat × String) :=
  entries.filterMap (discoverEntry ext ((max_size_mb.getD 100) * 1024 * 1024))

/-! ### get_file_stats -/

/-- Mirror of the pyclass FileStats (hash as the oracle's hex string). -/
structure FileStats where
  path : String
  size : Nat
  line_count : Nat
  is_binary : Bool
  hash : String
  language : String
deriving DecidableEq

/-- The per-path task of get_file_stats: start from zeroed stats, fill
size from metadata when available, and only when the open succeeds run
the sniff and then either the text pass (count and hash the
UTF-8-decodable lines, each followed by one newline byte) or the binary
pass (whole-file hash only under the 50 MB cutoff). -/
def statsFor (ext : Ext) (fs : FS) (p : String) : FileStats :=
  let f := fs p
  let size := f.size?.getD 0
  let base : FileStats :=
    { path := p, size := size, line_count := 0, is_binary := false,
      hash := "", language := detect_language_rs p }
  match f.content? with
  | none => base
  | some content =>
      if ext.inspect_binary (content.take 1024) then
        { base with
          is_binary := true,
          hash := if size < 50000000 then ext.sha256hex content else "" }
      else
        let okLines := (rustLines content).filter (fun l => ext.utf8Ok l)
        { base with
          line_count := okLines.length,
          hash := ext.sha256hex (okLines.flatMap (fun l => l ++ [10])) }

/-- get_file_stats from the source: an independent task per path. -/
def get_file_stats (ext : Ext) (fs : FS) (paths : List String) : List FileStats :=
  paths.map (statsFor ext fs)

/-! ### validate_files -/

/-- Mirror of the pyclass MetricRule. -/
structure MetricRule where
  id : String
  metric_type : String
  threshold : Nat
deriving DecidableEq

/-- Mirror of the pyclass ValidationResult (snippet as bytes). -/
structure ValidationResult where
  rule_id : String
  file_path : String
  message : String
  line : Nat
  snippet : List Nat
deriving DecidableEq

/-- The message format of a size_bytes violation. -/
def sizeMessage (size threshold : Nat) : String :=
  "File size " ++ toString size ++ " exceeds limit " ++ toString threshold

/-- The message format of a line_count violation. -/
def lineCountMessage (count threshold : Nat) : String :=
  "Line count " ++ toString count ++ " exceeds limit " ++ toString threshold

/-- The size_bytes loop of validate_files' metric block. -/
def sizeResults (p : String) (size : Nat) (mrules : List MetricRule) :
    List ValidationResult :=
  mrules.filterMap (fun rule =>
    if rule.metric_type = "size_bytes" ∧ size > rule.threshold then
      some { rule_id := rule.id, file_path := p,
             message := sizeMessage size rule.threshold, line := 0, snippet := [] }
    else none)

/-- The line_count loop of validate_files' metric block. -/
def lineCountResults (p : String) (line_count : Nat) (mrules : List MetricRule) :
    List ValidationResult :=
  mrules.filterMap (fun rule =>
    if rule.metric_type = "line_count" ∧ line_count > rule.threshold then
      some { rule_id := rule.id, file_path := p,
             message := lineCountMessage line_count rule.threshold, line := 0,
             snippet := [] }
    else none)

/-- The line-counting read pass: performed only when some line_count
rule exists; reader.lines().count() counts every line, including lines
that would fail UTF-8 decoding. -/
def lineCountPass (fs : FS) (p : String) (mrules : List MetricRule) :
    List ValidationResult :=
  if mrules.any (fun r => r.metric_type == "line_count") then
    match (fs p).content? with
    | none => []
    | some content => lineCountResults p (rustLines content).length mrules
  else []

/-- The metric block of validate_files: entered only when metric rules
exist and the metadata call succeeds; runs the size loop and then, when
needed, the line-counting pass. -/
def metricBlock (fs : FS) (p : String) (mrules : List MetricRule) :
    List ValidationResult :=
  if mrules.isEmpty then []
  else
    match (fs p).size? with
    | none => []
    | some size => sizeResults p size mrules ++ lineCountPass fs p mrules

/-- The regex block of validate_files: entered only when some rule
compiled; scans lines (skipping UTF-8 failures) and emits one result
per (line, rule) match with 1-based line and trimmed snippet. -/
def regexBlock (ext : Ext) (fs : FS) (compiled : List (String × Regex)) (p : String) :
    List ValidationResult :=
  if compiled.isEmpty then []
  else
    match (fs p).content? with
    | none => []
    | some content =>
        ((rustLines content).enum).flatMap (fun pr =>
          if ext.utf8Ok pr.2 then
            compiled.filterMap (fun c =>
              (c.2.find pr.2).map (fun _ =>
                ({ rule_id := c.1, file_path := p, message := "Pattern match found",
                   line := pr.1 + 1, snippet := trimBytes pr.2 } : ValidationResult)))
          else [])

/-- validate_files from the source: compile regex rules, then per file
run the metric block followed by the regex block. -/
def validate_files (ext : Ext) (fs : FS) (files : List String)
    (regex_rules : List RustRule) (metric_rules : List MetricRule) :
    List ValidationResult :=
  let compiled := compiledRules ext regex_rules
  files.flatMap (fun p => metricBlock fs p metric_rules ++ regexBlock ext fs compiled p)

/-- The File::open calls validate_files performs per file: one for the
line-counting pass (only when metric rules exist, the metadata call
succeeded and some line_count rule exists) and one for the regex scan
(only when some regex rule compiled). -/
def validate_files_opens (ext : Ext) (fs : FS) (files : List String)
    (regex_rules : List RustRule) (metric_rules : List MetricRule) : List String :=
  let compiled := compiledRules ext regex_rules
  files.flatMap (fun p =>
    (if ¬ metric_rules.isEmpty ∧ ((fs p).size?).isSome
        ∧ metric_rules.any (fun r => r.metric_type == "line_count")
     then [p] else [])
    ++ (if ¬ compiled.isEmpty then [p] else []))

/-! ### get_ast_metadata

tree-sitter parsing and query matching are external; they are
abstracted into a TsOracle (fixed for one call, i.e. one content
buffer and one grammar).  What the repository itself contributes --
the registered-parser table, the per-language query strings, the
empty-query short-circuit, the capture-to-record mapping with its
parent-first-line snippet and byte truncation -- is modelled
concretely.  Option none at the call level models a Rust panic
propagating out of the function (which pyo3 surfaces as a raised
exception). -/

/-- Mirror of AstNodeInfo (texts as bytes). -/
structure AstNodeInfoB where
  name : List Nat
  line_number : Nat
  code_snippet : List Nat
deriving DecidableEq

/-- Mirror of AstMetadata. -/
structure AstMetadataB where
  functions : List AstNodeInfoB
  classes : List AstNodeInfoB
  imports : List AstNodeInfoB
  references : List (List Nat)
deriving DecidableEq

/-- One query capture as the engine sees it: the capture node's
UTF-8 text, its 0-based start row, and the source text of its parent
node (none when the node has no parent or the parent's text fails
UTF-8 decoding, in which case the source falls back to the capture
text). -/
structure Capture where
  text : List Nat
  row : Nat
  parentText? : Option (List Nat)

/-- tree-sitter oracle for one (content, grammar) pair: whether
Query::new succeeds on a query string, and the capture sequence the
query cursor yields for it. -/
structure TsOracle where
  queryOk : String → Bool
  captures : String → List Capture

/-- The source's registered-grammar table (its get-language function,
renamed here): which language tags have a grammar. -/
def get_language_parser_opt (lang : String) : Option String :=
  match lang with
  | "python" => some "tree_sitter_python"
  | "typescript" => some "tree_sitter_typescript"
  | "javascript" => some "tree_sitter_javascript"
  | "go" => some "tree_sitter_go"
  | "java" => some "tree_sitter_java"
  | _ => none

/-- get_queries from the source: the four query strings (functions,
classes, imports, references) per language; every other language --
java included -- gets four empty strings. -/
def get_queries (lang : String) : String × String × String × String :=
  match lang with
  | "python" =>
      ("(function_definition name: (identifier) @name)",
       "(class_definition name: (identifier) @name)",
       "(import_from_statement (dotted_name (identifier) @name)) (import_statement (dotted_name (identifier) @name))",
       "(identifier) @name")
  | "typescript" | "javascript" =>
      ("(function_declaration name: (identifier) @name) (method_definition name: (property_identifier) @name)",
       "(class_declaration name: (type_identifier) @name)",
       "(import_statement (import_clause (named_imports (import_specifier name: (identifier) @name))))",
       "(identifier) @name")
  | "go" =>
      ("(function_declaration name: (identifier) @name) (method_declaration name: (field_identifier) @name)",
       "(type_declaration (type_spec name: (type_identifier) @name))",
       "(import_spec path: (interpreted_string_literal) @name)",
       "(identifier) @name")
  | _ => ("", "", "", "")

/-- Bytes before the first newline byte. -/
def takeToNl : List Nat → List Nat
  | [] => []
  | b :: r => if b = 10 then [] else b :: takeToNl r

/-- Model of str::lines().next() (the first line of a string): none on
the empty string; otherwise the bytes up to the first 0x0A, with one
0x0D stripped only when it directly preceded that 0x0A. -/
def firstLine (s : List Nat) : Option (List Nat) :=
  if s.isEmpty then none
  else some (if s.contains 10 then stripCR (takeToNl s) else s)

/-- Model of str::is_char_boundary at index n: true at 0 and at the
length, and otherwise exactly when the byte at n is not a UTF-8
continuation byte. -/
def isCharBoundary (s : List Nat) (n : Nat) : Bool :=
  n == 0 || n == s.length ||
    (match s.get? n with
     | some b => decide (¬ (128 ≤ b ∧ b < 192))
     | none => false)

/-- The trailing ellipsis marker bytes ("..."). -/
def ellipsisBytes : List Nat := [46, 46, 46]

/-- The source's truncation step: when the snippet is longer than 200
BYTES it takes the byte slice [..200] and appends the ellipsis.  The
slice panics when byte index 200 is not a character boundary; none
models that panic. -/
def truncate200 (snippet : List Nat) : Option (List Nat) :=
  if snippet.length > 200 then
    if isCharBoundary snippet 200 then some (snippet.take 200 ++ ellipsisBytes)
    else none
  else some snippet

/-- The snippet computation for one capture: parent text when
available (falling back to the capture text), first line of it
(falling back to the capture text when it is empty), then the
truncation step; none models a panic. -/
def snippet_of (text : List Nat) (parentText? : Option (List Nat)) :
    Option (List Nat) :=
  truncate200 ((firstLine (parentText?.getD text)).getD text)

/-- Mapping one capture to an AstNodeInfo (1-based line); none models
a panic in the snippet truncation. -/
def process_capture (c : Capture) : Option AstNodeInfoB :=
  (snippet_of c.text c.parentText?).map (fun sn =>
    { name := c.text, line_number := c.row + 1, code_snippet := sn })

/-- process_query from the source: empty query strings short-circuit
to an empty list before touching the tree; a query that fails to
compile also yields an empty list; otherwise each capture is mapped,
and a panic in any capture propagates (none). -/
def process_query (oracle : TsOracle) (query_str : String) :
    Option (List AstNodeInfoB) :=
  if query_str = "" then some []
  else if oracle.queryOk query_str then (oracle.captures query_str).mapM process_capture
  else some []

/-- get_ast_metadata from the source: all-empty metadata for languages
without a registered grammar; otherwise the four queries run (empty
query strings yielding empty categories); none models a panic
propagating out of the call. -/
def get_ast_metadata (oracle : TsOracle) (language : String) : Option AstMetadataB :=
  match get_language_parser_opt language with
  | none => some { functions := [], classes := [], imports := [], references := [] }
  | some _ =>
      let q := get_queries language
      match process_query oracle q.1, process_query oracle q.2.1,
            process_query oracle q.2.2.1 with
      | some fns, some cls, some imps =>
          some { functions := fns, classes := cls, imports := imps,
                 references :=
                   if q.2.2.2 = "" then []
                   else if oracle.queryOk q.2.2.2 then
                     (oracle.captures q.2.2.2).map Capture.text
                   else [] }
      | _, _, _ => none

/-! ### Concrete instantiations of the external oracles, used by the
witness theorems (the claim theorems themselves quantify over every
Ext / TsOracle). -/

/-- Does pat occur at the head of line? -/
def startsWithBytes : List Nat → List Nat → Bool
  | [], _ => true
  | _ :: _, [] => false
  | a :: as, b :: bs => a == b && startsWithBytes as bs

/-- Leftmost occurrence of pat in line, as a byte offset from i. -/
def findSubGo (pat : List Nat) : List Nat → Nat → Option Nat
  | [], i => if startsWithBytes pat [] then some i else none
  | l@(_ :: r), i => if startsWithBytes pat l then some i else findSubGo pat r (i + 1)

/-- A literal-substring regex: its find returns the byte offset of the
leftmost occurrence of the pattern. -/
def litRegex (p : String) : Regex :=
  { find := fun line => findSubGo (p.data.map Char.toNat) line 0 }

/-- Executable oracle bundle for witnesses: null-byte sniff, a dummy
injective digest, ASCII-only UTF-8 decode, literal-substring regexes
(every pattern compiles). -/
def extLit : Ext :=
  { inspect_binary := fun b => b.contains 0,
    sha256hex := fun l => toString l,
    utf8Ok := fun l => l.all (fun b => b < 128),
    regexCompile := fun p => some (litRegex p) }

/-- Oracle bundle in which no pattern compiles. -/
def extNone : Ext :=
  { extLit with regexCompile := fun _ => none }

/-! ### Claim C10 -/

/-- Claim C10: for every tree-sitter oracle (hence every content
string), get_ast_metadata on language "java" yields all-empty metadata:
java has a registered grammar parser, but get_queries gives it four
empty query strings, so every category short-circuits and the call
behaves identically to an unsupported language (compared here with
"ruby", which has no registered grammar). -/
theorem C10_java_all_empty (oracle oracle2 : TsOracle) :
    get_ast_metadata oracle "java" =
      some { functions := [], classes := [], imports := [], references := [] } ∧
    (get_language_parser_opt "java").isSome = true ∧
    get_queries "java" = ("", "", "", "") ∧
    get_ast_metadata oracle "java" = get_ast_metadata oracle2 "ruby" :=
  ⟨rfl, rfl, rfl, rfl⟩

/-! ### Claim C9 -/

/-- Claim C9: when no rule's pattern compiles, match_patterns returns
the empty sequence for every filesystem and file list (so nonexistent
paths cannot cause an error: the filesystem is never consulted) and
performs no File::open at all; rules that fail to compile are merely
dropped, never fatal. -/
theorem C9_zero_compiled_rules (ext : Ext) (rules : List RustRule)
    (h : ∀ r ∈ rules, ext.regexCompile r.pattern = none) :
    (∀ fs files, match_patterns ext fs files rules = []) ∧
    (∀ files, match_patterns_opens ext files rules = []) := by
  have hc : compiledRules ext rules = [] := by
    rw [compiledRules, List.filterMap_eq_nil_iff]
    intro r hr
    rw [h r hr]
    rfl
  exact ⟨fun fs files => by simp [match_patterns, hc],
         fun files => by simp [match_patterns_opens, hc]⟩

/-- Witness for C9 at a concrete input: one rule whose pattern does not
compile, one path that exists nowhere. -/
theorem C9_zero_compiled_rules_witness :
    match_patterns extNone (fun _ => ⟨none, none⟩) ["missing.txt"] [⟨"r1", "("⟩] = [] ∧
    match_patterns_opens extNone ["missing.txt"] [⟨"r1", "("⟩] = [] := by
  have h := C9_zero_compiled_rules extNone [⟨"r1", "("⟩] (fun r _ => rfl)
  exact ⟨h.1 (fun _ => ⟨none, none⟩) ["missing.txt"], h.2 ["missing.txt"]⟩

/-! ### Claim C2 -/

/-- Claim C2: every descriptor discover_files emits respects the size
limit (default 100 MiB when the argument is absent) and stems from a
file entry whose 1024-byte sniff, whenever the open succeeded, did not
classify it binary. -/
theorem C2_discover_size_and_binary (ext : Ext) (entries : List (Option WalkEntry))
    (max_size_mb : Option Nat) (d : String × Nat × String)
    (hd : d ∈ discover_files ext entries max_size_mb) :
    d.2.1 ≤ (max_size_mb.getD 100) * 1024 * 1024 ∧
    ∃ e : WalkEntry, some e ∈ entries ∧ e.isFile = true ∧
      d = (e.path, e.size?.getD 0, detect_language_rs e.path) ∧
      ∀ bytes, e.content? = some bytes → ext.inspect_binary (bytes.take 1024) = false := by
  rw [discover_files, List.mem_filterMap] at hd
  obtain ⟨e?, he?, hde⟩ := hd
  match e? with
  | none => exact absurd hde (by simp [discoverEntry])
  | some e =>
    rw [discoverEntry, Option.some_bind] at hde
    by_cases hf : e.isFile
    · rw [if_pos hf] at hde
      by_cases hsz : e.size?.getD 0 > (max_size_mb.getD 100) * 1024 * 1024
      · rw [if_pos hsz] at hde
        exact absurd hde (by simp)
      · rw [if_neg hsz] at hde
        match hct : e.content? with
        | some bytes =>
          simp only [hct] at hde
          by_cases hbin : ext.inspect_binary (bytes.take 1024) = true
          · rw [if_pos hbin] at hde
            exact absurd hde (by simp)
          · rw [if_neg hbin] at hde
            obtain rfl := Option.some.inj hde
            refine ⟨Nat.le_of_not_lt hsz, e, he?, hf, rfl, ?_⟩
            intro bytes2 hb2
            rw [hct] at hb2
            obtain rfl := Option.some.inj hb2
            exact Bool.eq_false_iff.mpr hbin
        | none =>
          simp only [hct] at hde
          obtain rfl := Option.some.inj hde
          refine ⟨Nat.le_of_not_lt hsz, e, he?, hf, rfl, ?_⟩
          intro bytes2 hb2
          rw [hct] at hb2
          exact absurd hb2 (by simp)
    · rw [if_neg hf] at hde
      exact absurd hde (by simp)

/-- Walker output used by the C2 witness: a single small text file. -/
def entriesC2 : List (Option WalkEntry) :=
  [some { isFile := true, path := "a.py", size? := some 3, content? := some [104, 105] }]

/-- Witness for C2: the concrete descriptor emitted for entriesC2
satisfies the size bound and traces back to a sniff-negative entry. -/
theorem C2_discover_size_and_binary_witness :
    ("a.py", 3, "python").2.1 ≤ ((none : Option Nat).getD 100) * 1024 * 1024 ∧
    ∃ e : WalkEntry, some e ∈ entriesC2 ∧ e.isFile = true ∧
      ("a.py", (3 : Nat), "python") = (e.path, e.size?.getD 0, detect_language_rs e.path) ∧
      ∀ bytes, e.content? = some bytes →
        extLit.inspect_binary (bytes.take 1024) = false :=
  C2_discover_size_and_binary extLit entriesC2 none ("a.py", 3, "python") (by decide)

/-! ### Claim C4 -/

/-- Walker entry whose File::open fails (e.g. permission denied). -/
def lockedEntry : WalkEntry :=
  { isFile := true, path := "locked.txt", size? := some 5, content? := none }

/-- Counterexample to claim C4 as stated: an entry whose open fails
during discovery is NOT omitted from the output: the source's
if-let-Ok merely skips the binary sniff and still pushes the
descriptor, so the failed entry appears as a FileDescriptor. -/
theorem C4_open_failure_counterexample :
    discover_files extLit [some lockedEntry] none = [("locked.txt", 5, "unknown")] := by
  decide

/-- Claim C4 amended: a walker-level error entry is omitted and
discovery continues, but an entry whose own File::open fails is still
emitted (with its metadata size and extension language; only the
binary sniff is skipped), and the remaining entries are processed
unchanged either way. -/
theorem C4_amended_open_failure_still_emits (ext : Ext) (e : WalkEntry)
    (rest : List (Option WalkEntry)) (msz : Option Nat)
    (hf : e.isFile = true) (hopen : e.content? = none)
    (hsz : e.size?.getD 0 ≤ (msz.getD 100) * 1024 * 1024) :
    discover_files ext (some e :: rest) msz =
      (e.path, e.size?.getD 0, detect_language_rs e.path) :: discover_files ext rest msz ∧
    (e.path, e.size?.getD 0, detect_language_rs e.path) ∈
      discover_files ext (some e :: rest) msz ∧
    discover_files ext (none :: rest) msz = discover_files ext rest msz := by
  have h1 : discoverEntry ext ((msz.getD 100) * 1024 * 1024) (some e) =
      some (e.path, e.size?.getD 0, detect_language_rs e.path) := by
    rw [discoverEntry, Option.some_bind, if_pos hf, if_neg (Nat.not_lt.mpr hsz), hopen]
  refine ⟨?_, ?_, ?_⟩
  · rw [discover_files, List.filterMap_cons_some h1]
    rfl
  · rw [discover_files, List.filterMap_cons_some h1]
    exact List.mem_cons_self _ _
  · rw [discover_files, List.filterMap_cons_none (by rfl)]
    rfl

/-- Witness for the amended C4 at a concrete input: the open-failure
entry is emitted and discovery continues past it. -/
theorem C4_amended_open_failure_still_emits_witness :
    discover_files extLit (some lockedEntry :: [some lockedEntry]) none =
      ("locked.txt", 5, "unknown") :: discover_files extLit [some lockedEntry] none ∧
    ("locked.txt", (5 : Nat), "unknown") ∈
      discover_files extLit (some lockedEntry :: [some lockedEntry]) none ∧
    discover_files extLit (none :: [some lockedEntry]) none =
      discover_files extLit [some lockedEntry] none := by
  have h := C4_amended_open_failure_still_emits extLit lockedEntry [some lockedEntry]
    none rfl rfl (by decide)
  exact h

/-! ### Claim C5 -/

/-- Filesystem in which every path has readable metadata (size 7) but
every open fails: an existing yet unreadable file. -/
def fsLocked : FS := fun _ => ⟨some 7, none⟩

/-- Counterexample to claim C5 as stated: for an unreadable file whose
metadata call still succeeds, get_file_stats reports the metadata size
(here 7), not the claimed zero size. -/
theorem C5_unreadable_size_counterexample :
    (get_file_stats extLit fsLocked ["locked.txt"]).map FileStats.size = [7] := by
  decide

/-- Claim C5 amended: a path whose open fails yields a FileStats with
zero line count, is_binary false and empty hash, and with size taken
from the metadata call (zero exactly when the metadata call fails too,
i.e. for missing files); each batch entry is computed independently,
so the other paths' results are unaffected and the batch never
aborts. -/
theorem C5_amended_unreadable_degrades (ext : Ext) (fs : FS) (p : String)
    (h : (fs p).content? = none) :
    statsFor ext fs p =
      { path := p, size := (fs p).size?.getD 0, line_count := 0, is_binary := false,
        hash := "", language := detect_language_rs p } ∧
    ((fs p).size? = none →
      statsFor ext fs p =
        { path := p, size := 0, line_count := 0, is_binary := false, hash := "",
          language := detect_language_rs p }) ∧
    (∀ (paths : List String) (i : Nat),
      (get_file_stats ext fs paths)[i]? = (paths[i]?).map (statsFor ext fs)) := by
  have h1 : statsFor ext fs p =
      { path := p, size := (fs p).size?.getD 0, line_count := 0, is_binary := false,
        hash := "", language := detect_language_rs p } := by
    rw [statsFor, h]
  refine ⟨h1, fun hm => ?_, fun paths i => ?_⟩
  · rw [h1, hm]
    rfl
  · rw [get_file_stats, List.getElem?_map]

/-- Witness for the amended C5 at a concrete input: the unreadable
file degrades to zeroed stats (apart from the metadata size), and the
sibling batch entry is untouched. -/
theorem C5_amended_unreadable_degrades_witness :
    statsFor extLit fsLocked "locked.txt" =
      { path := "locked.txt", size := (fsLocked "locked.txt").size?.getD 0,
        line_count := 0, is_binary := false, hash := "",
        language := detect_language_rs "locked.txt" } ∧
    ((fsLocked "locked.txt").size? = none →
      statsFor extLit fsLocked "locked.txt" =
        { path := "locked.txt", size := 0, line_count := 0, is_binary := false,
          hash := "", language := detect_language_rs "locked.txt" }) ∧
    (∀ (paths : List String) (i : Nat), (get_file_stats extLit fsLocked paths)[i]? =
      (paths[i]?).map (statsFor extLit fsLocked)) :=
  C5_amended_unreadable_degrades extLit fsLocked "locked.txt" rfl

/-! ### Claim C6 -/

/-- Length invariant of the line splitter: one line per newline byte,
plus a final unterminated line unless the content is empty (with an
empty accumulator) or ends in a newline. -/
theorem rustLinesGo_length (content : List Nat) :
    ∀ acc, (rustLinesGo content acc).length =
      content.count 10 +
        (if content.getLast? = some 10 ∨ (content = [] ∧ acc = []) then 0 else 1) := by
  induction content with
  | nil =>
      intro acc
      by_cases h : acc = []
      · subst h
        simp [rustLinesGo]
      · simp [rustLinesGo, h, List.isEmpty_iff]
  | cons b rest ih =>
      intro acc
      by_cases hb : b = 10
      · subst hb
        rw [rustLinesGo, if_pos rfl]
        simp only [List.length_cons, ih [], List.count_cons, beq_self_eq_true, if_true]
        match rest with
        | [] => simp
        | r :: rs =>
            rw [List.getLast?_cons_cons]
            simp only [List.cons_ne_nil, and_false, or_false, false_and]
            omega
      · rw [rustLinesGo, if_neg hb]
        rw [ih (acc ++ [b])]
        simp only [List.count_cons, List.append_ne_nil_of_right_ne_nil _ (List.cons_ne_nil b []),
          and_false, or_false]
        have hbeq : (b == 10) = false := by simp [hb]
        rw [hbeq]
        match rest with
        | [] =>
            simp only [List.count_nil, List.getLast?_nil, List.getLast?_singleton]
            have : ¬ (some b = some 10) := by simp [hb]
            simp [this, hb]
        | r :: rs =>
            rw [List.getLast?_cons_cons]
            simp

/-- The number of lines of a byte content: newline count plus one for
a final unterminated fragment. -/
theorem rustLines_length (content : List Nat) :
    (rustLines content).length =
      content.count 10 +
        (if content.getLast? = some 10 ∨ content = [] then 0 else 1) := by
  rw [rustLines, rustLinesGo_length]
  congr 2
  simp

/-- Claim C6: for a readable file that the sniff classifies as text
(and whose lines all decode as UTF-8), get_file_stats' per-file task
reports line_count equal to the number of newline-terminated or final
unterminated lines, and a hash that is the digest of each line's bytes
followed by one newline byte -- the line-normalized stream, not the raw
file bytes -- and the result depends only on the file's content and
metadata, so an unchanged file yields an identical hash. -/
theorem C6_text_line_count_and_hash (ext : Ext) (fs fs2 : FS) (p : String)
    (content : List Nat)
    (hc : (fs p).content? = some content)
    (hbin : ext.inspect_binary (content.take 1024) = false)
    (hok : ∀ l ∈ rustLines content, ext.utf8Ok l = true)
    (h2 : fs2 p = fs p) :
    (statsFor ext fs p).line_count = (rustLines content).length ∧
    (statsFor ext fs p).line_count =
      content.count 10 +
        (if content.getLast? = some 10 ∨ content = [] then 0 else 1) ∧
    (statsFor ext fs p).hash =
      ext.sha256hex ((rustLines content).flatMap (fun l => l ++ [10])) ∧
    statsFor ext fs2 p = statsFor ext fs p := by
  have hfilter : (rustLines content).filter (fun l => ext.utf8Ok l) = rustLines content :=
    List.filter_eq_self.mpr hok
  have hs : statsFor ext fs p =
      { path := p, size := (fs p).size?.getD 0,
        line_count := (rustLines content).length, is_binary := false,
        hash := ext.sha256hex ((rustLines content).flatMap (fun l => l ++ [10])),
        language := detect_language_rs p } := by
    simp only [statsFor, hc, hbin, Bool.false_eq_true, if_false, hfilter]
  refine ⟨by rw [hs], ?_, by rw [hs], by simp only [statsFor, h2]⟩
  rw [hs, ← rustLines_length]

/-- Filesystem used by the C6 witness: a 4-byte, 2-line text file. -/
def fsText : FS := fun _ => ⟨some 4, some [104, 105, 10, 120]⟩

/-- Witness for C6 at a concrete input: the two-line file hi-newline-x
has line_count 2 and hashes the normalized stream. -/
theorem C6_text_line_count_and_hash_witness :
    (statsFor extLit fsText "a.txt").line_count =
      (rustLines [104, 105, 10, 120]).length ∧
    (statsFor extLit fsText "a.txt").line_count =
      [104, 105, 10, 120].count 10 +
        (if ([104, 105, 10, 120] : List Nat).getLast? = some 10 ∨
            ([104, 105, 10, 120] : List Nat) = [] then 0 else 1) ∧
    (statsFor extLit fsText "a.txt").hash =
      extLit.sha256hex ((rustLines [104, 105, 10, 120]).flatMap (fun l => l ++ [10])) ∧
    statsFor extLit fsText "a.txt" = statsFor extLit fsText "a.txt" :=
  C6_text_line_count_and_hash extLit fsText fsText "a.txt" [104, 105, 10, 120]
    rfl (by decide) (by decide) rfl

/-! ### Claims C7 and C8: helper lemmas -/

/-- A line_count message never equals a size_bytes message (their
fixed prefixes differ at the first character). -/
theorem lineCountMessage_ne_sizeMessage (u v s t : Nat) :
    ¬ lineCountMessage u v = sizeMessage s t := by
  intro h
  have hd : (lineCountMessage u v).data.head? = (sizeMessage s t).data.head? := by rw [h]
  rw [lineCountMessage, sizeMessage] at hd
  simp only [String.data_append] at hd
  simp only [List.cons_append, List.head?_cons, Option.some.injEq] at hd
  exact absurd hd (by decide)

/-- The regex result message never equals a size_bytes message. -/
theorem patternMessage_ne_sizeMessage (s t : Nat) :
    ¬ ("Pattern match found" : String) = sizeMessage s t := by
  intro h
  have hd : ("Pattern match found" : String).data.head? = (sizeMessage s t).data.head? := by
    rw [h]
  rw [sizeMessage] at hd
  simp only [String.data_append] at hd
  simp only [List.cons_append, List.head?_cons, Option.some.injEq] at hd
  exact absurd hd (by decide)

/-- Shape of the size_bytes loop's results. -/
theorem mem_sizeResults {p : String} {size : Nat} {mrules : List MetricRule}
    {res : ValidationResult} :
    res ∈ sizeResults p size mrules ↔
    ∃ rule, rule ∈ mrules ∧ rule.metric_type = "size_bytes" ∧ size > rule.threshold ∧
      res = { rule_id := rule.id, file_path := p,
              message := sizeMessage size rule.threshold, line := 0, snippet := [] } := by
  rw [sizeResults, List.mem_filterMap]
  constructor
  · rintro ⟨rule, hr, heq⟩
    by_cases hcond : rule.metric_type = "size_bytes" ∧ size > rule.threshold
    · rw [if_pos hcond] at heq
      exact ⟨rule, hr, hcond.1, hcond.2, (Option.some.inj heq).symm⟩
    · rw [if_neg hcond] at heq
      exact absurd heq (by simp)
  · rintro ⟨rule, hr, h1, h2, rfl⟩
    exact ⟨rule, hr, by rw [if_pos ⟨h1, h2⟩]⟩

/-- Shape of the line_count loop's results. -/
theorem mem_lineCountResults {p : String} {lc : Nat} {mrules : List MetricRule}
    {res : ValidationResult} :
    res ∈ lineCountResults p lc mrules ↔
    ∃ rule, rule ∈ mrules ∧ rule.metric_type = "line_count" ∧ lc > rule.threshold ∧
      res = { rule_id := rule.id, file_path := p,
              message := lineCountMessage lc rule.threshold, line := 0, snippet := [] } := by
  rw [lineCountResults, List.mem_filterMap]
  constructor
  · rintro ⟨rule, hr, heq⟩
    by_cases hcond : rule.metric_type = "line_count" ∧ lc > rule.threshold
    · rw [if_pos hcond] at heq
      exact ⟨rule, hr, hcond.1, hcond.2, (Option.some.inj heq).symm⟩
    · rw [if_neg hcond] at heq
      exact absurd heq (by simp)
  · rintro ⟨rule, hr, h1, h2, rfl⟩
    exact ⟨rule, hr, by rw [if_pos ⟨h1, h2⟩]⟩

/-- Every result of the metric block carries line 0, an empty snippet,
and a message embedding the observed value and the violated rule's
threshold. -/
theorem mem_metricBlock {fs : FS} {p : String} {mrules : List MetricRule}
    {res : ValidationResult} (h : res ∈ metricBlock fs p mrules) :
    res.line = 0 ∧ res.snippet = [] ∧
    ∃ rule, rule ∈ mrules ∧ res.rule_id = rule.id ∧
      ∃ observed, observed > rule.threshold ∧
        ((rule.metric_type = "size_bytes" ∧
            res.message = sizeMessage observed rule.threshold) ∨
         (rule.metric_type = "line_count" ∧
            res.message = lineCountMessage observed rule.threshold)) := by
  rw [metricBlock] at h
  split at h
  · exact absurd h (List.not_mem_nil res)
  · split at h
    · exact absurd h (List.not_mem_nil res)
    · rename_i size hsize
      rw [List.mem_append] at h
      rcases h with h | h
      · obtain ⟨rule, hr, ht, hthr, rfl⟩ := mem_sizeResults.mp h
        exact ⟨rfl, rfl, rule, hr, rfl, size, hthr, Or.inl ⟨ht, rfl⟩⟩
      · rw [lineCountPass] at h
        split at h
        · split at h
          · exact absurd h (List.not_mem_nil res)
          · rename_i content hcontent
            obtain ⟨rule, hr, ht, hthr, rfl⟩ := mem_lineCountResults.mp h
            exact ⟨rfl, rfl, rule, hr, rfl, (rustLines content).length, hthr,
              Or.inr ⟨ht, rfl⟩⟩
        · exact absurd h (List.not_mem_nil res)

/-- Every result of the regex block carries the message "Pattern match
found", the 1-based line number of a line of the file's content, and
that line's trimmed text as snippet. -/
theorem mem_regexBlock {ext : Ext} {fs : FS} {compiled : List (String × Regex)}
    {p : String} {res : ValidationResult} (h : res ∈ regexBlock ext fs compiled p) :
    res.message = "Pattern match found" ∧
    ∃ content, (fs p).content? = some content ∧
      ∃ ln line, (rustLines content)[ln]? = some line ∧
        res.line = ln + 1 ∧ res.snippet = trimBytes line := by
  rw [regexBlock] at h
  split at h
  · exact absurd h (List.not_mem_nil res)
  · split at h
    · exact absurd h (List.not_mem_nil res)
    · rename_i content hcontent
      rw [List.mem_flatMap] at h
      obtain ⟨pr, hpr, hres⟩ := h
      split at hres
      · rw [List.mem_filterMap] at hres
        obtain ⟨c, hc, heq⟩ := hres
        rw [Option.map_eq_some'] at heq
        obtain ⟨s, hfind, hres⟩ := heq
        subst hres
        exact ⟨rfl, content, hcontent, pr.1, pr.2,
          List.mem_enum_iff_getElem?.mp hpr, rfl, rfl⟩
      · exact absurd hres (List.not_mem_nil res)

/-! ### Claim C7 -/

/-- Claim C7: validate_files skips empty rule categories exactly.  With
no size_bytes metric rule, the size loop produces nothing and no
emitted result carries a size message (even when a line_count rule is
violated); with no line_count metric rule the line-counting read pass
opens no file; with no regex rule the regex scan pass opens no file. -/
theorem C7_category_skipping (ext : Ext) (fs : FS) (files : List String)
    (regex_rules : List RustRule) (metric_rules : List MetricRule) :
    ((∀ r ∈ metric_rules, ¬ r.metric_type = "size_bytes") →
       (∀ p size, sizeResults p size metric_rules = []) ∧
       (∀ res ∈ validate_files ext fs files regex_rules metric_rules,
          ∀ s t, ¬ res.message = sizeMessage s t)) ∧
    ((∀ r ∈ metric_rules, ¬ r.metric_type = "line_count") →
       validate_files_opens ext fs files regex_rules metric_rules =
         files.flatMap (fun p =>
           if ¬ (compiledRules ext regex_rules).isEmpty then [p] else [])) ∧
    (regex_rules = [] →
       validate_files_opens ext fs files regex_rules metric_rules =
         files.flatMap (fun p =>
           if ¬ metric_rules.isEmpty ∧ ((fs p).size?).isSome
              ∧ metric_rules.any (fun r => r.metric_type == "line_count")
           then [p] else [])) := by
  refine ⟨fun hsz => ⟨fun p size => ?_, fun res hres s t => ?_⟩, fun hlc => ?_, fun hrr => ?_⟩
  · rw [sizeResults, List.filterMap_eq_nil_iff]
    intro rule hr
    rw [if_neg (fun hcond => hsz rule hr hcond.1)]
  · rw [validate_files, List.mem_flatMap] at hres
    obtain ⟨p, _, hres⟩ := hres
    rw [List.mem_append] at hres
    rcases hres with hres | hres
    · obtain ⟨_, _, rule, hr, _, observed, _, hmsg⟩ := mem_metricBlock hres
      rcases hmsg with ⟨ht, _⟩ | ⟨_, hmsg⟩
      · exact absurd ht (hsz rule hr)
      · rw [hmsg]
        exact lineCountMessage_ne_sizeMessage observed rule.threshold s t
    · rw [(mem_regexBlock hres).1]
      exact patternMessage_ne_sizeMessage s t
  · have hany : metric_rules.any (fun r => r.metric_type == "line_count") = false := by
      rw [List.any_eq_false]
      intro r hr
      simpa using hlc r hr
    rw [validate_files_opens]
    refine congrArg files.flatMap (funext fun p => ?_)
    rw [if_neg (fun hcond => by rw [hany] at hcond; exact absurd hcond.2.2 (by simp))]
    rfl
  · subst hrr
    rw [validate_files_opens]
    refine congrArg files.flatMap (funext fun p => ?_)
    have hre : (if ¬ (compiledRules ext ([] : List RustRule)).isEmpty
        then [p] else ([] : List String)) = [] := if_neg (fun hc => hc rfl)
    rw [hre, List.append_nil]

/-- The single result validate_files emits for a violated line_count
rule on the two-line file of fsText. -/
def lcResC7 : ValidationResult :=
  { rule_id := "lc", file_path := "a.txt", message := lineCountMessage 2 0,
    line := 0, snippet := [] }

/-- Witness for C7 at concrete inputs: with only a (violated)
line_count rule the size loop is empty and the emitted result is not a
size message; with only a size_bytes rule the opens list keeps no
line-count pass; with no regex rules the opens list keeps no regex
pass. -/
theorem C7_category_skipping_witness :
    sizeResults "a.txt" 4 [⟨"lc", "line_count", 0⟩] = [] ∧
    ¬ lcResC7.message = sizeMessage 4 0 ∧
    validate_files_opens extLit fsText ["a.txt"] [] [⟨"sz", "size_bytes", 99⟩] =
      ["a.txt"].flatMap (fun p =>
        if ¬ (compiledRules extLit []).isEmpty then [p] else []) ∧
    validate_files_opens extLit fsText ["a.txt"] [] [⟨"lc", "line_count", 0⟩] =
      ["a.txt"].flatMap (fun p =>
        if ¬ ([⟨"lc", "line_count", 0⟩] : List MetricRule).isEmpty
           ∧ ((fsText p).size?).isSome
           ∧ ([⟨"lc", "line_count", 0⟩] : List MetricRule).any
               (fun r => r.metric_type == "line_count")
        then [p] else []) := by
  have h1 := C7_category_skipping extLit fsText ["a.txt"] [] [⟨"lc", "line_count", 0⟩]
  have h2 := C7_category_skipping extLit fsText ["a.txt"] [] [⟨"sz", "size_bytes", 99⟩]
  exact ⟨(h1.1 (by decide)).1 "a.txt" 4,
         (h1.1 (by decide)).2 lcResC7 (by decide) 4 0,
         h2.2.1 (by decide),
         h1.2.2 rfl⟩

/-! ### Claim C8 -/

/-- Filesystem used by the C8 scenario: a 20-byte file. -/
def fsBig : FS := fun _ => ⟨some 20, some (List.replicate 20 97)⟩

/-- Claim C8: metric violations carry line 0, an empty snippet and a
message embedding the observed value and the threshold; they are
emitted for every violated metric rule; regex matches instead carry
the 1-based line and the trimmed snippet; and the concrete scenario of
one size_bytes rule with threshold 10 against a 20-byte file yields
exactly one result whose message mentions 20 and 10. -/
theorem C8_metric_and_regex_result_shape (ext : Ext) (fs : FS) (files : List String)
    (rr : List RustRule) (mr : List MetricRule) :
    (∀ p res, res ∈ metricBlock fs p mr →
        res.line = 0 ∧ res.snippet = [] ∧
        ∃ rule, rule ∈ mr ∧ res.rule_id = rule.id ∧
          ∃ observed, observed > rule.threshold ∧
            ((rule.metric_type = "size_bytes" ∧
                res.message = sizeMessage observed rule.threshold) ∨
             (rule.metric_type = "line_count" ∧
                res.message = lineCountMessage observed rule.threshold))) ∧
    (∀ p res, res ∈ regexBlock ext fs (compiledRules ext rr) p →
        ∃ content, (fs p).content? = some content ∧
          ∃ ln line, (rustLines content)[ln]? = some line ∧
            res.line = ln + 1 ∧ res.snippet = trimBytes line) ∧
    (validate_files ext fs files rr mr =
      files.flatMap (fun p => metricBlock fs p mr ++ regexBlock ext fs (compiledRules ext rr) p)) ∧
    (∀ p ∈ files, ∀ size, (fs p).size? = some size →
      ∀ rule ∈ mr, rule.metric_type = "size_bytes" → size > rule.threshold →
        ({ rule_id := rule.id, file_path := p, message := sizeMessage size rule.threshold,
           line := 0, snippet := [] } : ValidationResult) ∈
          validate_files ext fs files rr mr) ∧
    (validate_files extLit fsBig ["big.txt"] [] [⟨"big", "size_bytes", 10⟩] =
      [{ rule_id := "big", file_path := "big.txt",
         message := "File size 20 exceeds limit 10", line := 0, snippet := [] }]) := by
  refine ⟨fun p res h => mem_metricBlock h,
          fun p res h => (mem_regexBlock h).2,
          rfl, ?_, by decide⟩
  intro p hp size hsize rule hrule htype hthr
  rw [validate_files, List.mem_flatMap]
  refine ⟨p, hp, List.mem_append_left _ ?_⟩
  rw [metricBlock,
      if_neg (fun he => absurd (List.isEmpty_iff.mp he) (List.ne_nil_of_mem hrule)),
      hsize]
  exact List.mem_append_left _ (mem_sizeResults.mpr ⟨rule, hrule, htype, hthr, rfl⟩)

/-- The single metric result of the C8 scenario. -/
def bigResC8 : ValidationResult :=
  { rule_id := "big", file_path := "big.txt", message := sizeMessage 20 10,
    line := 0, snippet := [] }

/-- Witness for C8 at concrete inputs: the scenario's result has the
claimed shape and is indeed emitted. -/
theorem C8_metric_and_regex_result_shape_witness :
    (bigResC8.line = 0 ∧ bigResC8.snippet = [] ∧
      ∃ rule, rule ∈ ([⟨"big", "size_bytes", 10⟩] : List MetricRule) ∧
        bigResC8.rule_id = rule.id ∧
        ∃ observed, observed > rule.threshold ∧
          ((rule.metric_type = "size_bytes" ∧
              bigResC8.message = sizeMessage observed rule.threshold) ∨
           (rule.metric_type = "line_count" ∧
              bigResC8.message = lineCountMessage observed rule.threshold))) ∧
    bigResC8 ∈ validate_files extLit fsBig ["big.txt"] [] [⟨"big", "size_bytes", 10⟩] := by
  have h := C8_metric_and_regex_result_shape extLit fsBig ["big.txt"] []
    [⟨"big", "size_bytes", 10⟩]
  exact ⟨h.1 "big.txt" bigResC8 (by decide),
         h.2.2.2.1 "big.txt" (by decide) 20 rfl ⟨"big", "size_bytes", 10⟩ (by decide)
           rfl (by decide)⟩

/-! ### Claim C3 -/

/-- First line of the parent node's text in the C3 failing input: 199
ASCII bytes (a), then the two-byte UTF-8 character U+00E9 (bytes 195
169), then one ASCII byte (z): 202 bytes long and 201 characters, with
byte index 200 falling inside the two-byte character. -/
def badLine : List Nat := List.replicate 199 97 ++ [195, 169, 122]

/-- tree-sitter oracle of the C3 failing input: every query compiles
and yields a single capture (text "a", row 0) whose parent node's
source text is badLine. -/
def oracleBad : TsOracle :=
  { queryOk := fun _ => true,
    captures := fun _ => [{ text := [97], row := 0, parentText? := some badLine }] }

set_option maxRecDepth 4000 in
/-- Claim C3 fails on the code: the snippet truncation takes the byte
slice [..200] of the parent's first line whenever its byte length
exceeds 200, and on badLine byte index 200 is not a character
boundary, so the slice panics -- get_ast_metadata raises (modelled as
none) instead of truncating.  The truncation also counts bytes where
the claim says characters. -/
theorem C3_snippet_truncation_panics :
    badLine.length = 202 ∧
    isCharBoundary badLine 200 = false ∧
    truncate200 badLine = none ∧
    snippet_of [97] (some badLine) = none ∧
    get_ast_metadata oracleBad "python" = none := by
  decide

/-! ### Claim C1: helper lemmas -/

/-- A Bool count is at most one when only elements with one fixed key
can satisfy the predicate and the keys are pairwise distinct. -/
theorem countP_le_one_of_key {α β : Type} (l : List α) (q : α → Bool) (key : α → β)
    (k : β) (hnd : (l.map key).Nodup) (hq : ∀ a ∈ l, q a = true → key a = k) :
    l.countP q ≤ 1 := by
  induction l with
  | nil => simp
  | cons a l ih =>
      rw [List.map_cons, List.nodup_cons] at hnd
      rw [List.countP_cons]
      by_cases hqa : q a = true
      · have hz : l.countP q = 0 := by
          rw [List.countP_eq_zero]
          intro b hb hqb
          apply hnd.1
          have hab : key a = key b := by
            rw [hq a (List.mem_cons_self a l) hqa, hq b (List.mem_cons_of_mem a hb) hqb]
          rw [hab]
          exact List.mem_map_of_mem key hb
        simp [hz, hqa]
      · simp only [hqa, if_false, Nat.add_zero]
        exact ih hnd.2 (fun b hb => hq b (List.mem_cons_of_mem a hb))

/-- A sum of one count per element is at most one when only the
element with one fixed key can contribute, its contribution is at most
one, and the keys are pairwise distinct. -/
theorem sum_map_le_one {α β : Type} (l : List α) (key : α → β) (g : α → Nat) (k : β)
    (hnd : (l.map key).Nodup)
    (h0 : ∀ a ∈ l, ¬ key a = k → g a = 0)
    (h1 : ∀ a ∈ l, key a = k → g a ≤ 1) :
    (l.map g).sum ≤ 1 := by
  induction l with
  | nil => simp
  | cons a l ih =>
      rw [List.map_cons, List.nodup_cons] at hnd
      rw [List.map_cons, List.sum_cons]
      by_cases hk : key a = k
      · have hz : (l.map g).sum = 0 := by
          apply List.sum_eq_zero
          intro x hx
          rw [List.mem_map] at hx
          obtain ⟨b, hb, rfl⟩ := hx
          apply h0 b (List.mem_cons_of_mem a hb)
          intro hbk
          apply hnd.1
          rw [hk, ← hbk]
          exact List.mem_map_of_mem key hb
        rw [hz, Nat.add_zero]
        exact h1 a (List.mem_cons_self a l) hk
      · rw [h0 a (List.mem_cons_self a l) hk, Nat.zero_add]
        exact ih hnd.2 (fun b hb => h0 b (List.mem_cons_of_mem a hb))
              (fun b hb => h1 b (List.mem_cons_of_mem a hb))

/-- The ids of the surviving compiled rules form a sublist of the rule
ids (compilation only drops rules). -/
theorem compiledRules_map_fst_sublist (ext : Ext) (rules : List RustRule) :
    ((compiledRules ext rules).map Prod.fst).Sublist (rules.map RustRule.id) := by
  induction rules with
  | nil => simp [compiledRules]
  | cons r l ih =>
      rw [compiledRules, List.filterMap_cons, List.map_cons]
      cases h : ext.regexCompile r.pattern with
      | none => exact List.Sublist.cons r.id ih
      | some re => exact List.Sublist.cons₂ r.id ih

/-- Membership characterization of the hits produced for one file. -/
theorem mem_fileHits {ext : Ext} {compiled : List (String × Regex)} {fs : FS}
    {fp : String} {h : MatchHit} :
    h ∈ fileHits ext compiled fs fp ↔
    ∃ content, (fs fp).content? = some content ∧
      ∃ ln line, (rustLines content)[ln]? = some line ∧ ext.utf8Ok line = true ∧
        ∃ c, c ∈ compiled ∧ ∃ s, c.2.find line = some s ∧
          h = { file_path := fp, line_number := ln + 1, column := s + 1,
                rule_id := c.1, snippet := trimBytes line } := by
  rw [fileHits]
  constructor
  · intro hh
    split at hh
    · exact absurd hh (List.not_mem_nil h)
    · rename_i content hcontent
      rw [List.mem_flatMap] at hh
      obtain ⟨pr, hpr, hh⟩ := hh
      split at hh
      · rename_i hok
        rw [List.mem_filterMap] at hh
        obtain ⟨c, hc, heq⟩ := hh
        rw [Option.map_eq_some'] at heq
        obtain ⟨s, hfind, rfl⟩ := heq
        exact ⟨content, hcontent, pr.1, pr.2, List.mem_enum_iff_getElem?.mp hpr, hok,
          c, hc, s, hfind, rfl⟩
      · exact absurd hh (List.not_mem_nil h)
  · rintro ⟨content, hcontent, ln, line, hline, hok, c, hc, s, hfind, rfl⟩
    rw [hcontent]
    show _ ∈ ((rustLines content).enum).flatMap _
    rw [List.mem_flatMap]
    refine ⟨(ln, line), List.mem_enum_iff_getElem?.mpr hline, ?_⟩
    show _ ∈ if ext.utf8Ok line then _ else _
    rw [if_pos hok, List.mem_filterMap]
    exact ⟨c, hc, by rw [hfind]; rfl⟩

/-- Per-file bound: for any file path, line number and rule id, the
per-file scan contributes at most one hit carrying them, as soon as
the input rule ids are pairwise distinct. -/
theorem fileHits_countP_le_one (ext : Ext) (fs : FS) (rules : List RustRule)
    (fp f : String) (n : Nat) (i : String)
    (hids : (rules.map RustRule.id).Nodup) :
    (fileHits ext (compiledRules ext rules) fs fp).countP
      (fun h => h.file_path == f && h.line_number == n && h.rule_id == i) ≤ 1 := by
  rw [fileHits]
  split
  · simp
  · rename_i content hcontent
    rw [List.countP_flatMap]
    simp only [Function.comp_def]
    apply sum_map_le_one ((rustLines content).enum) (fun pr => pr.1 + 1) _ n
    · have hfst := List.nodup_enum_map_fst (rustLines content)
      have : ((rustLines content).enum).map (fun pr => pr.1 + 1) =
          (((rustLines content).enum).map Prod.fst).map (fun m => m + 1) := by
        rw [List.map_map]
        rfl
      rw [this]
      exact hfst.map (fun a b hab => Nat.succ_injective hab)
    · intro pr _ hne
      rw [List.countP_eq_zero]
      intro hit hmem
      split at hmem
      · rw [List.mem_filterMap] at hmem
        obtain ⟨c, _, heq⟩ := hmem
        rw [Option.map_eq_some'] at heq
        obtain ⟨s, _, rfl⟩ := heq
        intro hcontr
        simp only [Bool.and_eq_true, beq_iff_eq] at hcontr
        exact hne hcontr.1.2
      · exact absurd hmem (List.not_mem_nil hit)
    · intro pr _ _
      split
      · rw [List.countP_filterMap]
        apply countP_le_one_of_key _ _ Prod.fst i
        · exact (compiledRules_map_fst_sublist ext rules).nodup hids
        · intro c _ hq
          cases hfind : c.2.find pr.2 with
          | none => rw [hfind] at hq; exact absurd hq (by simp)
          | some s =>
              rw [hfind] at hq
              simp only [Option.map_some', Option.getD_some, Bool.and_eq_true,
                beq_iff_eq] at hq
              exact hq.2
      · simp

/-! ### Claim C1 -/

/-- Claim C1: the hits of match_patterns are exactly one hit per file,
per 1-based line whose raw bytes decode as UTF-8, per compiled rule
whose leftmost match exists on that line; the hit carries the 1-based
byte column of the match start against the original (untrimmed) line,
the rule id, and the trimmed line text as snippet.  Moreover, with
distinct file paths and distinct rule ids, each (file, line, rule)
triple contributes at most one hit, while distinct rules matching the
same line each contribute their own hit (completeness direction of the
equivalence). -/
theorem C1_match_patterns_hits (ext : Ext) (fs : FS) (files : List String)
    (rules : List RustRule) :
    (∀ h : MatchHit,
       h ∈ match_patterns ext fs files rules ↔
         ∃ f, f ∈ files ∧ ∃ content, (fs f).content? = some content ∧
           ∃ ln line, (rustLines content)[ln]? = some line ∧
             ext.utf8Ok line = true ∧
             ∃ c, c ∈ compiledRules ext rules ∧ ∃ s, c.2.find line = some s ∧
               h = { file_path := f, line_number := ln + 1, column := s + 1,
                     rule_id := c.1, snippet := trimBytes line }) ∧
    (files.Nodup → (rules.map RustRule.id).Nodup →
      ∀ f n i,
        (match_patterns ext fs files rules).countP
          (fun h => h.file_path == f && h.line_number == n && h.rule_id == i) ≤ 1) := by
  constructor
  · intro h
    rw [match_patterns]
    by_cases hce : (compiledRules ext rules).isEmpty
    · rw [if_pos hce]
      constructor
      · intro hh
        exact absurd hh (List.not_mem_nil h)
      · rintro ⟨f, _, content, _, ln, line, _, _, c, hc, _⟩
        rw [List.isEmpty_iff.mp hce] at hc
        exact absurd hc (List.not_mem_nil c)
    · rw [if_neg hce, List.mem_flatMap]
      exact exists_congr (fun f => and_congr_right (fun _ => mem_fileHits))
  · intro hfiles hids f n i
    rw [match_patterns]
    by_cases hce : (compiledRules ext rules).isEmpty
    · rw [if_pos hce]
      simp
    · rw [if_neg hce, List.countP_flatMap]
      simp only [Function.comp_def]
      apply sum_map_le_one files id _ f
      · rw [List.map_id]
        exact hfiles
      · intro fp _ hne
        rw [List.countP_eq_zero]
        intro hit hmem
        obtain ⟨content, _, ln, line, _, _, c, _, s, _, rfl⟩ := mem_fileHits.mp hmem
        intro hcontr
        simp only [Bool.and_eq_true, beq_iff_eq] at hcontr
        exact hne hcontr.1.1
      · intro fp _ _
        exact fileHits_countP_le_one ext fs rules fp f n i hids

/-- The second line of the C1 witness file (two slashes, TODO marker
text): no leading or trailing whitespace, so trimming is the
identity on it. -/
def c1line : List Nat := [47, 47, 32, 84, 79, 68, 79, 58, 32, 102, 105, 120]

/-- The C1 witness file content: a first line hi, then c1line. -/
def c1content : List Nat := [104, 105, 10] ++ c1line

/-- Filesystem of the C1 witness. -/
def fsC1 : FS := fun _ => ⟨some 15, some c1content⟩

/-- Rule set of the C1 witness: one rule matching the TODO marker. -/
def rulesC1 : List RustRule := [⟨"r1", "TODO"⟩]

/-- Witness for C1 at a concrete input: the file x.txt matches rule r1
on line 2 at byte column 4, with the raw line as (already trimmed)
snippet, and the (file, line, rule) triple carries at most one hit. -/
theorem C1_match_patterns_hits_witness :
    ({ file_path := "x.txt", line_number := 2, column := 4, rule_id := "r1",
       snippet := c1line } : MatchHit) ∈
      match_patterns extLit fsC1 ["x.txt"] rulesC1 ∧
    (match_patterns extLit fsC1 ["x.txt"] rulesC1).countP
      (fun h => h.file_path == "x.txt" && h.line_number == 2 && h.rule_id == "r1") ≤ 1 := by
  have h := C1_match_patterns_hits extLit fsC1 ["x.txt"] rulesC1
  constructor
  · apply (h.1 _).mpr
    refine ⟨"x.txt", by decide, c1content, rfl, 1, c1line, by decide, by decide,
      ("r1", litRegex "TODO"), ?_, 3, by decide, by decide⟩
    exact List.mem_singleton.mpr rfl
  · exact h.2 (by decide) (by decide) "x.txt" 2 "r1"

end Warden
